import Mathlib

/-!
Shallow embedding of the TV3-Downloader harvest-and-resumable-download engine
(`src/cli/tv3_cli.py` and `src/gui/tv3_gui.py`), together with theorems settling
the frozen claims about it.

Conventions:
* Python strings are modelled as `String` / `List Char`.
* Machine integers in the sources are small non-negative counters; they are
  modelled as `Nat` (or `Int` where Python `int()` may produce negatives).
* Network interaction is modelled by oracles: a page fetcher is a function from
  the attempt number to `Option` of the parsed result (`none` = the request or
  parsing raised), and the download worker receives a per-attempt script of
  `Option Resp` (`none` = the GET itself raised).
* The file system seen by one worker is the pair of its temp file and its final
  file (`FS`); path-existence checks in the task planners are an abstract
  predicate `String → Bool`.
-/

namespace TV3

/-! ## `safe_filename` (tv3_cli.py lines 48-51, tv3_gui.py lines 2325-2328)

`safe_filename` is
`re.sub(r'[\\/:"*?<>|]+', '-', name)` followed by `re.sub(r'\s+', ' ', name).strip()`.
The two regex substitutions replace each maximal run of matching characters by a
single replacement character; they are modelled by a one-flag state machine
(`inRun` = the previous character was part of a run). -/

/-- The characters forbidden by the first substitution: `\ / : " * ? < > |`. -/
def forbiddenChar (c : Char) : Bool :=
  c == '\\' || c == '/' || c == ':' || c == '"' || c == '*' || c == '?' ||
  c == '<' || c == '>' || c == '|'

/-- Python's `\s` / `str.isspace` character class (ASCII whitespace, the
information separators, NEL, NBSP, and the Unicode space separators). -/
def pySpace (c : Char) : Bool :=
  (0x9 <= c.toNat && c.toNat <= 0xd) || c.toNat == 0x20 ||
  (0x1c <= c.toNat && c.toNat <= 0x1f) || c.toNat == 0x85 || c.toNat == 0xa0 ||
  c.toNat == 0x1680 || (0x2000 <= c.toNat && c.toNat <= 0x200a) ||
  c.toNat == 0x2028 || c.toNat == 0x2029 || c.toNat == 0x202f ||
  c.toNat == 0x205f || c.toNat == 0x3000

/-- `re.sub(r'[\\/:"*?<>|]+', '-', ·)`: each maximal run of forbidden characters
becomes a single `-`.  `inRun` records whether the previous character was
forbidden (so the current forbidden character extends an already-replaced run). -/
def subForbiddenGo (inRun : Bool) : List Char → List Char
  | [] => []
  | c :: rest =>
    if forbiddenChar c then
      if inRun then subForbiddenGo true rest
      else '-' :: subForbiddenGo true rest
    else c :: subForbiddenGo false rest

def subForbidden (l : List Char) : List Char := subForbiddenGo false l

/-- `re.sub(r'\s+', ' ', ·)`: each maximal run of whitespace becomes one space. -/
def collapseWsGo (inRun : Bool) : List Char → List Char
  | [] => []
  | c :: rest =>
    if pySpace c then
      if inRun then collapseWsGo true rest
      else ' ' :: collapseWsGo true rest
    else c :: collapseWsGo false rest

def collapseWs (l : List Char) : List Char := collapseWsGo false l

/-- `str.strip()`: drop leading and trailing whitespace. -/
def stripWs (l : List Char) : List Char :=
  ((l.dropWhile pySpace).reverse.dropWhile pySpace).reverse

def safeFilenameL (l : List Char) : List Char :=
  stripWs (collapseWs (subForbidden l))

/-- `safe_filename` from the sources, on `String`. -/
def safe_filename (s : String) : String :=
  ⟨safeFilenameL s.data⟩

end TV3

namespace TV3

/-- Every character of the first substitution's output is non-forbidden
(kept characters failed the class test; replacements are `-`). -/
theorem mem_subForbiddenGo {c : Char} :
    ∀ {b : Bool} {l : List Char}, c ∈ subForbiddenGo b l → forbiddenChar c = false := by
  intro b l
  induction l generalizing b with
  | nil => intro h; cases h
  | cons d rest ih =>
    intro h
    by_cases hd : forbiddenChar d = true
    · cases b with
      | true => simpa [subForbiddenGo, hd] using ih (by simpa [subForbiddenGo, hd] using h)
      | false =>
        simp [subForbiddenGo, hd] at h
        rcases h with h1 | h2
        · subst h1; decide
        · exact ih h2
    · simp [subForbiddenGo, hd] at h
      rcases h with h1 | h2
      · subst h1; simpa using hd
      · exact ih h2

/-- Characters of the whitespace-collapsing output are a space or input characters. -/
theorem mem_collapseWsGo {c : Char} :
    ∀ {b : Bool} {l : List Char}, c ∈ collapseWsGo b l → c = ' ' ∨ c ∈ l := by
  intro b l
  induction l generalizing b with
  | nil => intro h; cases h
  | cons d rest ih =>
    intro h
    by_cases hd : pySpace d = true
    · cases b with
      | true =>
        rcases ih (by simpa [collapseWsGo, hd] using h) with h1 | h2
        · exact Or.inl h1
        · exact Or.inr (List.mem_cons_of_mem _ h2)
      | false =>
        simp [collapseWsGo, hd] at h
        rcases h with h1 | h2
        · exact Or.inl h1
        · rcases ih h2 with h3 | h4
          · exact Or.inl h3
          · exact Or.inr (List.mem_cons_of_mem _ h4)
    · simp [collapseWsGo, hd] at h
      rcases h with h1 | h2
      · exact Or.inr (h1 ▸ List.mem_cons_self _ _)
      · rcases ih h2 with h3 | h4
        · exact Or.inl h3
        · exact Or.inr (List.mem_cons_of_mem _ h4)

/-- While inside a whitespace run, the next emitted character is not whitespace. -/
theorem head?_collapseWsGo_true {c : Char} :
    ∀ {l : List Char}, (collapseWsGo true l).head? = some c → pySpace c = false := by
  intro l
  induction l with
  | nil => intro h; simp [collapseWsGo] at h
  | cons d rest ih =>
    intro h
    by_cases hd : pySpace d = true
    · exact ih (by simpa [collapseWsGo, hd] using h)
    · simp [collapseWsGo, hd] at h
      subst h; simpa using hd

/-- No two consecutive characters of the whitespace-collapsing output are
both whitespace. -/
theorem chain'_collapseWsGo :
    ∀ (l : List Char) (b : Bool),
      (collapseWsGo b l).Chain' (fun x y => pySpace x = false ∨ pySpace y = false) := by
  intro l
  induction l with
  | nil => intro b; simp [collapseWsGo]
  | cons d rest ih =>
    intro b
    by_cases hd : pySpace d = true
    · cases b with
      | true => simpa [collapseWsGo, hd] using ih true
      | false =>
        simp only [collapseWsGo, hd, if_true]
        refine List.chain'_cons'.mpr ⟨?_, ih true⟩
        intro y hy
        exact Or.inr (head?_collapseWsGo_true hy)
    · simp only [collapseWsGo, hd, if_false]
      refine List.chain'_cons'.mpr ⟨?_, ih false⟩
      intro y _
      exact Or.inl (by simpa using hd)

/-- A nonempty list that extends to another on the right has the same head. -/
theorem head?_of_isPrefix {α : Type} {l₁ l₂ : List α} (h : l₁ <+: l₂) (hne : l₁ ≠ []) :
    l₂.head? = l₁.head? := by
  obtain ⟨t, rfl⟩ := h
  cases l₁ with
  | nil => exact absurd rfl hne
  | cons a l => rfl

end TV3

namespace TV3

/-- The sanitized name, before stripping, has no two consecutive whitespace
characters and no forbidden characters. -/
theorem stripWs_subset {l : List Char} : ∀ {c : Char}, c ∈ stripWs l → c ∈ l := by
  intro c h
  unfold stripWs at h
  rw [List.mem_reverse] at h
  have h2 := (List.dropWhile_sublist pySpace).subset h
  rw [List.mem_reverse] at h2
  exact (List.dropWhile_sublist pySpace).subset h2

/-- Stripping preserves the no-adjacent-whitespace chain property. -/
theorem chain'_stripWs {l : List Char}
    (h : l.Chain' (fun x y => pySpace x = false ∨ pySpace y = false)) :
    (stripWs l).Chain' (fun x y => pySpace x = false ∨ pySpace y = false) := by
  have h1 : (l.dropWhile pySpace).Chain' (fun x y => pySpace x = false ∨ pySpace y = false) :=
    h.suffix (List.dropWhile_suffix pySpace)
  have h2 : ((l.dropWhile pySpace).reverse).Chain'
      (fun x y => pySpace x = false ∨ pySpace y = false) := by
    rw [List.chain'_reverse]
    exact h1.imp fun a b hab => hab.symm
  have h3 := h2.suffix (List.dropWhile_suffix pySpace)
  unfold stripWs
  rw [List.chain'_reverse]
  exact h3.imp fun a b hab => hab.symm

/-- The head of the stripped list is not whitespace. -/
theorem head?_stripWs {l : List Char} {c : Char} (h : (stripWs l).head? = some c) :
    pySpace c = false := by
  have hpre : stripWs l <+: l.dropWhile pySpace := by
    have h0 : ((l.dropWhile pySpace).reverse.dropWhile pySpace)
        <:+ (l.dropWhile pySpace).reverse := List.dropWhile_suffix pySpace
    obtain ⟨t, ht⟩ := h0
    refine ⟨t.reverse, ?_⟩
    have := congrArg List.reverse ht
    simpa [stripWs] using this
  have hne : stripWs l ≠ [] := by
    intro hnil
    rw [hnil] at h
    cases h
  have hh : (l.dropWhile pySpace).head? = some c := by
    rw [head?_of_isPrefix hpre hne]
    exact h
  have := List.head?_dropWhile_not pySpace l
  rw [hh] at this
  exact this

/-- The last character of the stripped list is not whitespace. -/
theorem getLast?_stripWs {l : List Char} {c : Char} (h : (stripWs l).getLast? = some c) :
    pySpace c = false := by
  rw [List.getLast?_eq_head?_reverse] at h
  unfold stripWs at h
  rw [List.reverse_reverse] at h
  have := List.head?_dropWhile_not pySpace (l.dropWhile pySpace).reverse
  rw [h] at this
  exact this

/-- C10: `safe_filename` (tv3_cli.py 48-51, tv3_gui.py 2325-2328) returns a
string with none of the characters `\ / : " * ? < > |`, with no run of two or
more consecutive whitespace characters (each whitespace run is collapsed to a
single space), and with no leading or trailing whitespace.  Destination file
names of the planners are built through `safe_filename`, so they satisfy the
same invariant. -/
theorem safe_filename_invariant (s : String) :
    (∀ c ∈ (safe_filename s).data, forbiddenChar c = false) ∧
    ((safe_filename s).data.Chain' fun x y => pySpace x = false ∨ pySpace y = false) ∧
    (∀ c, (safe_filename s).data.head? = some c → pySpace c = false) ∧
    (∀ c, (safe_filename s).data.getLast? = some c → pySpace c = false) := by
  refine ⟨?_, ?_, ?_, ?_⟩
  · intro c hc
    have hc2 := @stripWs_subset (collapseWs (subForbidden s.data)) c hc
    rcases mem_collapseWsGo hc2 with h1 | h2
    · subst h1; decide
    · exact mem_subForbiddenGo h2
  · exact chain'_stripWs (chain'_collapseWsGo _ false)
  · intro c hc
    exact head?_stripWs hc
  · intro c hc
    exact getLast?_stripWs hc

/-- Witness for C10 at the concrete input `" x\y  z "`. -/
theorem safe_filename_invariant_witness :
    (safe_filename " x\\y  z ").data.getLast? = some 'z' ∧ pySpace 'z' = false :=
  ⟨by decide, (safe_filename_invariant " x\\y  z ").2.2.2 'z' (by decide)⟩

end TV3

namespace TV3

/-! ## Paginated harvester (`obtener_ids_capitulos`)

CLI version: tv3_cli.py lines 127-165.  GUI version: tv3_gui.py lines 2376-2408.
A page's network fetch is an oracle `attempts : Nat → Option β` giving the
result of the attempt with that number (`none` = the request raised).
`fetch_page` makes up to `max_retries + 1` attempts (the Python loop runs while
`attempts <= max_retries` with a pre-incremented counter) and falls back to the
empty result when they are exhausted. -/

/-- The retry loop of `fetch_page`: try attempt numbers `k, k+1, ...` while
`tries` attempts remain, returning the first successful result. -/
def fetchPageGo {β : Type} (empty : β) (attempts : Nat → Option β) : Nat → Nat → β
  | _, 0 => empty
  | k, t + 1 =>
    match attempts k with
    | some res => res
    | none => fetchPageGo empty attempts (k + 1) t

/-- CLI `fetch_page` (tv3_cli.py 133-149): ids of one page, `[]` on exhaustion. -/
def fetch_page (attempts : Nat → Option (List Nat)) (maxRetries : Nat) : List Nat :=
  fetchPageGo [] attempts 1 (maxRetries + 1)

/-- CLI `obtener_ids_capitulos` (tv3_cli.py 127-165): fetch all pages (the list
order stands for the arbitrary completion order of the pool), concatenate the
per-page id lists, then `sorted(set(all_ids), key=int)`: deduplicate and sort
ascending. -/
def obtener_ids_capitulos (pages : List (Nat → Option (List Nat))) (maxRetries : Nat) :
    List Nat :=
  let all_ids := (pages.map (fun p => fetch_page p maxRetries)).flatten
  all_ids.dedup.mergeSort (fun a b => a ≤ b)

/-- A chapter reference as assembled by the GUI harvester. -/
structure ChapterRef where
  id : Nat
  tcap : Nat
  deriving DecidableEq, Repr

/-- GUI `fetch_page` (tv3_gui.py 2381-2396): ids and season-episode numbers of
one page, `([], [])` on exhaustion. -/
def gui_fetch_page (attempts : Nat → Option (List Nat × List Nat)) (maxRetries : Nat) :
    List Nat × List Nat :=
  fetchPageGo ([], []) attempts 1 (maxRetries + 1)

/-- GUI `obtener_ids_capitulos` (tv3_gui.py 2376-2408): concatenate the per-page
id and `capitol_temporada` lists and zip them into records.  Note: unlike the
CLI version, there is no `sorted(set(...))` deduplication step. -/
def gui_obtener_ids_capitulos (pages : List (Nat → Option (List Nat × List Nat)))
    (maxRetries : Nat) : List ChapterRef :=
  let parts := pages.map (fun p => gui_fetch_page p maxRetries)
  let all_ids := (parts.map Prod.fst).flatten
  let all_tcaps := (parts.map Prod.snd).flatten
  (all_ids.zip all_tcaps).map fun p => ⟨p.1, p.2⟩

/-- The harvester's comparison key is transitive and total. -/
theorem natLe_trans (a b c : Nat) (hab : decide (a ≤ b) = true)
    (hbc : decide (b ≤ c) = true) : decide (a ≤ c) = true := by
  simp only [decide_eq_true_eq] at hab hbc ⊢
  omega

theorem natLe_total (a b : Nat) : (decide (a ≤ b) || decide (b ≤ a)) = true := by
  rcases Nat.le_total a b with h | h <;> simp [h]

/-- C1 (amended): the CLI harvester's result is deduplicated by id and sorted
ascending, for every server behaviour and page-arrival order, even when page
fetches are retried; the GUI harvester lacks the deduplication step (see the
counterexample). -/
theorem cli_harvest_nodup_sorted (pages : List (Nat → Option (List Nat)))
    (maxRetries : Nat) :
    (obtener_ids_capitulos pages maxRetries).Nodup ∧
    (obtener_ids_capitulos pages maxRetries).Pairwise (· ≤ ·) := by
  unfold obtener_ids_capitulos
  constructor
  · exact ((List.mergeSort_perm _ _).nodup_iff).mpr (List.nodup_dedup _)
  · have h := List.sorted_mergeSort natLe_trans natLe_total
      ((pages.map (fun p => fetch_page p maxRetries)).flatten.dedup)
    exact h.imp fun hab => by simpa using hab

/-- C1 counterexample: when two pages both report the chapter id 5, the GUI
harvester returns two `ChapterRef`s with the same id — the per-page results are
not deduplicated. -/
theorem gui_harvest_duplicate_ids :
    ¬ ((gui_obtener_ids_capitulos
        [fun _ => some ([5], [1]), fun _ => some ([5], [2])] 2).map ChapterRef.id).Nodup := by
  decide

end TV3

namespace TV3

/-! ## Python `int()` and the manifest builder's sort key -/

/-- Value of an ASCII digit. -/
def digitVal (c : Char) : Option Nat :=
  if '0' ≤ c ∧ c ≤ '9' then some (c.toNat - '0'.toNat) else none

/-- Digits of an integer literal, with single underscores allowed between
digits (as accepted by Python's `int()`). -/
def parseDigitsGo (acc : Nat) : List Char → Option Nat
  | [] => some acc
  | '_' :: rest =>
    match rest with
    | d :: rest2 =>
      match digitVal d with
      | some v => parseDigitsGo (acc * 10 + v) rest2
      | none => none
    | [] => none
  | c :: rest =>
    match digitVal c with
    | some v => parseDigitsGo (acc * 10 + v) rest
    | none => none

/-- A digit run must start with a digit (no leading underscore, nonempty). -/
def parseDigits : List Char → Option Nat
  | [] => none
  | c :: rest =>
    match digitVal c with
    | some v => parseDigitsGo v rest
    | none => none

/-- Python `int(s)`: strip whitespace, optional sign, ASCII digits with
underscore separators; `none` models a raised `ValueError`. -/
def pyIntParse (s : String) : Option Int :=
  match stripWs s.data with
  | '-' :: rest => (parseDigits rest).map fun n => -(n : Int)
  | '+' :: rest => (parseDigits rest).map fun n => (n : Int)
  | rest => (parseDigits rest).map fun n => (n : Int)

/-- `safe_int` (tv3_cli.py 267-271, tv3_gui.py 2520-2524): `int(x)` with any
failure mapped to 0. -/
def safe_int (s : String) : Int :=
  (pyIntParse s).getD 0

/-! ## Manifest builder (`build_links_csv` / `build_manifest`)

CLI: tv3_cli.py lines 219-303.  The resolver fan-out delivers one row block per
successfully resolved chapter; the list `resolved` stands for those blocks in
their arbitrary pool-completion order. -/

/-- Python `needle in hay` for strings: `listStartsWith needle l` holds when
`l` starts with `needle`. -/
def listStartsWith : List Char → List Char → Bool
  | [], _ => true
  | _ :: _, [] => false
  | a :: as, b :: bs => a == b && listStartsWith as bs

/-- Substring containment, Python's `in` operator on strings. -/
def containsSub (needle : List Char) : List Char → Bool
  | [] => needle.isEmpty
  | c :: rest => listStartsWith needle (c :: rest) || containsSub needle rest

/-- One media variant `(label, url)` of a resolved chapter. -/
structure MediaVariant where
  label : String
  url : String
  deriving DecidableEq, Repr

/-- The normalized per-chapter record built by `api_extract_media_urls`. -/
structure MediaInfo where
  id : Nat
  programa : String
  title : String
  capitol : String
  mp4s : List MediaVariant
  vtts : List MediaVariant
  deriving DecidableEq, Repr

/-- One CSV/manifest row
`[capitol, program, title, name, quality, link, file_name, type]`. -/
structure Row where
  capitol : String
  program : String
  title : String
  name : String
  quality : String
  link : String
  fileName : String
  typ : String
  deriving DecidableEq, Repr

/-- Python `str.split(sep)` for a one-character separator, as a structural
recursion on the character list (`acc` holds the current piece reversed). -/
def splitCharGo (sep : Char) : List Char → List Char → List (List Char)
  | [], acc => [acc.reverse]
  | c :: rest, acc =>
    if c == sep then acc.reverse :: splitCharGo sep rest []
    else splitCharGo sep rest (c :: acc)

def splitChar (sep : Char) (s : String) : List String :=
  (splitCharGo sep s.data []).map fun piece => ⟨piece⟩

/-- `url.split("/")[-1]`. -/
def urlBaseName (u : String) : String :=
  (splitChar '/' u).getLastD ""

/-- The row block one resolver worker emits for a chapter
(tv3_cli.py 236-252): mp4 variants filtered by the quality substring filter,
then vtt variants when subtitles are requested. -/
def workerRows (res : MediaInfo) (includeVtt : Bool) (qualityFilter : String) : List Row :=
  let program := safe_filename res.programa
  let title := safe_filename res.title
  let capitol := res.capitol
  let safeName := program ++ " - " ++ title
  let mp4Rows := res.mp4s.filterMap fun mp =>
    if (qualityFilter != "") && !(containsSub qualityFilter.data mp.label.data) then none
    else some ⟨capitol, program, title, safeName, mp.label, mp.url, urlBaseName mp.url, "mp4"⟩
  let vttRows :=
    if includeVtt then
      res.vtts.map fun vt =>
        ⟨capitol, program, title, safeName, vt.label, vt.url, urlBaseName vt.url, "vtt"⟩
    else []
  mp4Rows ++ vttRows

/-- The manifest row list of `build_links_csv` (tv3_cli.py 254-272): concatenate
the per-chapter blocks in completion order, then
`sorted(rows, key=lambda r: safe_int(r[0]))` — Python's sort is stable, modelled
by `mergeSort`. -/
def build_links_rows (resolved : List MediaInfo) (includeVtt : Bool)
    (qualityFilter : String) : List Row :=
  ((resolved.map fun res => workerRows res includeVtt qualityFilter).flatten).mergeSort
    fun a b => decide (safe_int a.capitol ≤ safe_int b.capitol)

/-- All rows of one chapter's block carry that chapter's `capitol` string. -/
theorem workerRows_capitol (res : MediaInfo) (iv : Bool) (qf : String) :
    ∀ r ∈ workerRows res iv qf, r.capitol = res.capitol := by
  intro r hr
  simp only [workerRows, List.mem_append] at hr
  rcases hr with h | h
  · rcases List.mem_filterMap.mp h with ⟨mp, _, hmp⟩
    split at hmp
    · cases hmp
    · cases hmp; rfl
  · rcases includeVtt : iv with _ | _
    · rw [includeVtt] at h; cases h
    · rw [includeVtt] at h
      simp only [if_true] at h
      rcases List.mem_map.mp h with ⟨vt, _, hvt⟩
      cases hvt; rfl

end TV3

namespace TV3

/-- The manifest comparison key `safe_int(r[0])` is transitive and total. -/
theorem rowLe_trans (a b c : Row)
    (hab : (decide (safe_int a.capitol ≤ safe_int b.capitol)) = true)
    (hbc : (decide (safe_int b.capitol ≤ safe_int c.capitol)) = true) :
    (decide (safe_int a.capitol ≤ safe_int c.capitol)) = true := by
  simp only [decide_eq_true_eq] at hab hbc ⊢
  omega

theorem rowLe_total (a b : Row) :
    ((decide (safe_int a.capitol ≤ safe_int b.capitol)) ||
      (decide (safe_int b.capitol ≤ safe_int a.capitol))) = true := by
  rcases Int.le_total (safe_int a.capitol) (safe_int b.capitol) with h | h <;> simp [h]

/-- C4: for every multiset of resolved chapter records, in whatever completion
order the resolver pool delivers them, the manifest row list is sorted
ascending by the numeric chapter key `safe_int(capitol)`, and each chapter's
block of variant rows keeps its original relative order (stability of the
sort). -/
theorem manifest_sorted_stable (resolved : List MediaInfo) (iv : Bool) (qf : String) :
    (build_links_rows resolved iv qf).Pairwise
      (fun a b => safe_int a.capitol ≤ safe_int b.capitol) ∧
    ∀ res ∈ resolved, (workerRows res iv qf).Sublist (build_links_rows resolved iv qf) := by
  constructor
  · have h := List.sorted_mergeSort rowLe_trans rowLe_total
      ((resolved.map fun res => workerRows res iv qf).flatten)
    exact h.imp fun hab => by simpa using hab
  · intro res hres
    apply List.sublist_mergeSort rowLe_trans rowLe_total
    · apply List.pairwise_of_forall_mem_list
      intro a ha b hb
      have h1 := workerRows_capitol res iv qf a ha
      have h2 := workerRows_capitol res iv qf b hb
      simp [h1, h2]
    · exact List.sublist_flatten_of_mem (List.mem_map_of_mem _ hres)

/-- Witness for C4: two chapters arriving in descending order. -/
theorem manifest_sorted_stable_witness :
    (workerRows ⟨7, "p", "t", "1", [⟨"480", "u/a.mp4"⟩], []⟩ true "").Sublist
      (build_links_rows
        [⟨9, "p", "t", "2", [⟨"480", "u/b.mp4"⟩], []⟩,
         ⟨7, "p", "t", "1", [⟨"480", "u/a.mp4"⟩], []⟩] true "") :=
  (manifest_sorted_stable
      [⟨9, "p", "t", "2", [⟨"480", "u/b.mp4"⟩], []⟩,
       ⟨7, "p", "t", "1", [⟨"480", "u/a.mp4"⟩], []⟩] true "").2
    ⟨7, "p", "t", "1", [⟨"480", "u/a.mp4"⟩], []⟩ (by simp)

end TV3

namespace TV3

/-! ## Task planner (`download_from_csv` / `download_from_manifest`)

CLI: tv3_cli.py lines 404-462.  GUI: tv3_gui.py lines 2166-2205.
On-disk state is the abstract predicate `existsOnDisk : String → Bool`
(`os.path.exists`). -/

/-- Python `str.strip()` on `String` (used on `row["Link"]`). -/
def pyStrip (s : String) : String :=
  ⟨stripWs s.data⟩

/-- `fname.split('.')[-1]`. -/
def rowExt (row : Row) : String :=
  (splitChar '.' row.fileName).getLastD ""

/-- `f"{n:02d}"` for the episode number. -/
def pad2 (n : Int) : String :=
  if 0 ≤ n ∧ n < 10 then "0" ++ toString n else toString n

/-- tv3_cli.py 430-433: `f"S01E{int(cap):02d} - {row['Name']}.{ext}"`, falling
back to `f"{row['Name']}.{ext}"` when `int(cap)` raises. -/
def finalName (row : Row) : String :=
  match pyIntParse row.capitol with
  | some n => "S01E" ++ pad2 n ++ " - " ++ row.name ++ "." ++ rowExt row
  | none => row.name ++ "." ++ rowExt row

/-- One entry of the CLI/GUI `tasks` list. -/
structure PlannedTask where
  link : String
  dst : String
  desc : String
  useAria2 : Bool
  deriving DecidableEq, Repr

/-- `os.path.join(base_folder, safe_filename(program), safe_filename(final_name))`. -/
def dstPath (baseFolder : String) (row : Row) : String :=
  baseFolder ++ "/" ++ safe_filename row.program ++ "/" ++ safe_filename (finalName row)

/-- The CLI task-planning loop (tv3_cli.py 423-456).  In resume-only mode a row
yields a task only when `dst + ".part"` exists (aria2 is forced off); in normal
mode a row yields a task only when `dst` does not exist. -/
def planTasks (rows : List Row) (baseFolder : String) (resume useAria2 : Bool)
    (existsOnDisk : String → Bool) : List PlannedTask :=
  rows.filterMap fun row =>
    let dst := dstPath baseFolder row
    let tmp := dst ++ ".part"
    if resume then
      if existsOnDisk tmp then some ⟨pyStrip row.link, dst, safe_filename (finalName row), false⟩
      else none
    else
      if existsOnDisk dst then none
      else some ⟨pyStrip row.link, dst, safe_filename (finalName row), useAria2⟩

/-- One manifest item as consumed by the GUI planner. -/
structure GuiItem where
  link : String
  program : String
  name : String
  fileName : String
  deriving DecidableEq, Repr

/-- GUI destination path (tv3_gui.py 2180-2186):
`os.path.join(base, safe_filename(program), safe_filename(f"{name}.{ext}"))`. -/
def gui_dstPath (baseFolder : String) (it : GuiItem) : String :=
  baseFolder ++ "/" ++ safe_filename it.program ++ "/" ++
    safe_filename (it.name ++ "." ++ (splitChar '.' it.fileName).getLastD "")

/-- The GUI task-planning loop (tv3_gui.py 2176-2205): the same two mutually
exclusive modes as the CLI. -/
def gui_planTasks (items : List GuiItem) (baseFolder : String) (resume useAria2 : Bool)
    (existsOnDisk : String → Bool) : List PlannedTask :=
  items.filterMap fun it =>
    let dst := gui_dstPath baseFolder it
    let tmp := dst ++ ".part"
    if resume then
      if existsOnDisk tmp then
        some ⟨it.link, dst, safe_filename (it.name ++ "." ++ (splitChar '.' it.fileName).getLastD ""), false⟩
      else none
    else
      if existsOnDisk dst then none
      else
        some ⟨it.link, dst, safe_filename (it.name ++ "." ++ (splitChar '.' it.fileName).getLastD ""), useAria2⟩

/-- C2: in resume-only mode every planned task's temp path already exists on
disk, and an asset whose temp path does not exist yields no task (its
destination never appears in the task list) — in both the CLI and the GUI
planner.  Resume-only mode never starts a new download. -/
theorem resume_only_needs_part_file (rows : List Row) (items : List GuiItem)
    (baseFolder : String) (useAria2 : Bool) (existsOnDisk : String → Bool) :
    (∀ t ∈ planTasks rows baseFolder true useAria2 existsOnDisk,
        existsOnDisk (t.dst ++ ".part") = true) ∧
    (∀ row ∈ rows, existsOnDisk (dstPath baseFolder row ++ ".part") = false →
        ∀ t ∈ planTasks rows baseFolder true useAria2 existsOnDisk,
          t.dst ≠ dstPath baseFolder row) ∧
    (∀ t ∈ gui_planTasks items baseFolder true useAria2 existsOnDisk,
        existsOnDisk (t.dst ++ ".part") = true) ∧
    (∀ it ∈ items, existsOnDisk (gui_dstPath baseFolder it ++ ".part") = false →
        ∀ t ∈ gui_planTasks items baseFolder true useAria2 existsOnDisk,
          t.dst ≠ gui_dstPath baseFolder it) := by
  have cli : ∀ t ∈ planTasks rows baseFolder true useAria2 existsOnDisk,
      existsOnDisk (t.dst ++ ".part") = true := by
    intro t ht
    rcases List.mem_filterMap.mp ht with ⟨row, _, hrow⟩
    simp only [if_true] at hrow
    by_cases hex : existsOnDisk (dstPath baseFolder row ++ ".part") = true
    · simp only [hex, if_true] at hrow
      cases hrow
      simpa using hex
    · rw [if_neg (by simpa using hex)] at hrow
      cases hrow
  have gui : ∀ t ∈ gui_planTasks items baseFolder true useAria2 existsOnDisk,
      existsOnDisk (t.dst ++ ".part") = true := by
    intro t ht
    rcases List.mem_filterMap.mp ht with ⟨it, _, hit⟩
    simp only [if_true] at hit
    by_cases hex : existsOnDisk (gui_dstPath baseFolder it ++ ".part") = true
    · simp only [hex, if_true] at hit
      cases hit
      simpa using hex
    · rw [if_neg (by simpa using hex)] at hit
      cases hit
  refine ⟨cli, ?_, gui, ?_⟩
  · intro row _ hnone t ht heq
    have := cli t ht
    rw [heq, hnone] at this
    cases this
  · intro it _ hnone t ht heq
    have := gui t ht
    rw [heq, hnone] at this
    cases this

/-- C3: in normal (non-resume) mode a task is created exactly for the assets
whose final path does not exist on disk: every planned task's destination is
absent, and every asset with an absent destination yields its task — in both
the CLI and the GUI planner. -/
theorem normal_mode_skips_existing (rows : List Row) (items : List GuiItem)
    (baseFolder : String) (useAria2 : Bool) (existsOnDisk : String → Bool) :
    (∀ t ∈ planTasks rows baseFolder false useAria2 existsOnDisk,
        existsOnDisk t.dst = false) ∧
    (∀ row ∈ rows, existsOnDisk (dstPath baseFolder row) = false →
        (⟨pyStrip row.link, dstPath baseFolder row, safe_filename (finalName row),
          useAria2⟩ : PlannedTask) ∈ planTasks rows baseFolder false useAria2 existsOnDisk) ∧
    (∀ t ∈ gui_planTasks items baseFolder false useAria2 existsOnDisk,
        existsOnDisk t.dst = false) ∧
    (∀ it ∈ items, existsOnDisk (gui_dstPath baseFolder it) = false →
        (⟨it.link, gui_dstPath baseFolder it,
          safe_filename (it.name ++ "." ++ (splitChar '.' it.fileName).getLastD ""),
          useAria2⟩ : PlannedTask) ∈ gui_planTasks items baseFolder false useAria2 existsOnDisk) := by
  refine ⟨?_, ?_, ?_, ?_⟩
  · intro t ht
    rcases List.mem_filterMap.mp ht with ⟨row, _, hrow⟩
    simp only [Bool.false_eq_true, if_false] at hrow
    by_cases hex : existsOnDisk (dstPath baseFolder row) = true
    · simp only [hex, if_true] at hrow
      cases hrow
    · rw [if_neg (by simpa using hex)] at hrow
      cases hrow
      simpa using hex
  · intro row hrow hex
    apply List.mem_filterMap.mpr
    refine ⟨row, hrow, ?_⟩
    simp [hex]
  · intro t ht
    rcases List.mem_filterMap.mp ht with ⟨it, _, hit⟩
    simp only [Bool.false_eq_true, if_false] at hit
    by_cases hex : existsOnDisk (gui_dstPath baseFolder it) = true
    · simp only [hex, if_true] at hit
      cases hit
    · rw [if_neg (by simpa using hex)] at hit
      cases hit
      simpa using hex
  · intro it hit hex
    apply List.mem_filterMap.mpr
    refine ⟨it, hit, ?_⟩
    simp [hex]

end TV3

namespace TV3

/-- Witness for C2: with exactly one partial file on disk, the single planned
task's temp path is that file. -/
theorem resume_only_needs_part_file_witness :
    (fun s => s == "d/Prog/S01E03 - Title.mp4.part")
      ((⟨"l", "d/Prog/S01E03 - Title.mp4", "S01E03 - Title.mp4", false⟩ : PlannedTask).dst
        ++ ".part") = true :=
  (resume_only_needs_part_file
      [⟨"3", "Prog", "t", "Title", "q", "l", "f.mp4", "mp4"⟩] [] "d" false
      (fun s => s == "d/Prog/S01E03 - Title.mp4.part")).1
    ⟨"l", "d/Prog/S01E03 - Title.mp4", "S01E03 - Title.mp4", false⟩ (by decide)

/-- Witness for C3: with nothing on disk, the one manifest row yields its task. -/
theorem normal_mode_skips_existing_witness :
    (⟨pyStrip "l", dstPath "d" ⟨"3", "Prog", "t", "Title", "q", "l", "f.mp4", "mp4"⟩,
      safe_filename (finalName ⟨"3", "Prog", "t", "Title", "q", "l", "f.mp4", "mp4"⟩),
      false⟩ : PlannedTask) ∈
      planTasks [⟨"3", "Prog", "t", "Title", "q", "l", "f.mp4", "mp4"⟩] "d" false false
        (fun _ => false) :=
  (normal_mode_skips_existing
      [⟨"3", "Prog", "t", "Title", "q", "l", "f.mp4", "mp4"⟩] [] "d" false
      (fun _ => false)).2.1
    ⟨"3", "Prog", "t", "Title", "q", "l", "f.mp4", "mp4"⟩ (by decide) rfl

end TV3

namespace TV3

/-! ## Resumable download worker (`download_chunked` / `download_chunked_with_callback`)

CLI: tv3_cli.py lines 317-383.  GUI: tv3_gui.py 2539-2594.
One worker touches two files: its temp file `dst + ".part"` and its final file
`dst`; `FS` holds their contents (`none` = the file does not exist).  The server
is a per-attempt script `Nat → Option Resp`: attempt `k` performing
`SESSION.get` observes `script k`, where `none` means the GET raised and
`some r` a response `r` whose streamed body may itself raise after
`failAfter` bytes. -/

/-- File-system state seen by one worker. -/
structure FS where
  tmp : Option (List Nat)
  dst : Option (List Nat)
  deriving DecidableEq, Repr

/-- One HTTP response: status code, body bytes, and an optional network error
raised after `failAfter` bytes of the body have been streamed. -/
structure Resp where
  status : Nat
  body : List Nat
  failAfter : Option Nat
  deriving DecidableEq, Repr

/-- Outcome of one attempt: `done` returns `dst`; `retry` is a caught exception
carrying the (possibly mutated) `headers` range, `existing` counter and files. -/
inductive AttemptOut where
  | done (fs : FS)
  | retry (hdr : Option Nat) (existing : Nat) (fs : FS)
  deriving DecidableEq, Repr

/-- Streaming the response body into the temp file (tv3_cli.py 353-374):
append mode keeps the current temp bytes, overwrite mode truncates; on success
the temp file is atomically renamed onto `dst` (`os.replace`). -/
def streamBody (r : Resp) (append : Bool) (hdr : Option Nat) (existing : Nat)
    (fs : FS) : AttemptOut :=
  let base := if append then fs.tmp.getD [] else []
  match r.failAfter with
  | some n => .retry hdr existing { fs with tmp := some (base ++ r.body.take n) }
  | none => .done { tmp := none, dst := some (base ++ r.body) }

/-- One attempt of the worker loop (tv3_cli.py 330-374): response dispatch for
a pending range header (206 → append, 416 → finalize from the temp file alone,
anything else → drop the range and the counted bytes, then `raise_for_status`
and overwrite), `raise_for_status` for plain requests, then streaming. -/
def runAttempt (r? : Option Resp) (hdr : Option Nat) (existing : Nat) (fs : FS) :
    AttemptOut :=
  match r? with
  | none => .retry hdr existing fs
  | some r =>
    if hdr.isSome then
      if r.status == 206 then streamBody r true hdr existing fs
      else if r.status == 416 then .done { tmp := none, dst := fs.tmp }
      else if r.status ≥ 400 then .retry none 0 fs
      else streamBody r false none 0 fs
    else
      if r.status ≥ 400 then .retry hdr existing fs
      else streamBody r false hdr existing fs

/-- Result of a whole worker run: the final files, the success flag
(`success = false` models `return None`), the sleeps performed between
attempts, and the range header of each issued request. -/
structure DLOut where
  fs : FS
  success : Bool
  delays : List Nat
  reqs : List (Option Nat)
  deriving DecidableEq, Repr

/-- The CLI retry loop (tv3_cli.py 329-383): attempts `k, k+1, ...` while
`remaining` attempts are left; a caught exception sleeps `backoff` seconds and
doubles it. -/
def download_chunked_go (script : Nat → Option Resp) : Nat → Nat → Option Nat → Nat →
    Nat → FS → List Nat → List (Option Nat) → DLOut
  | _, 0, _, _, _, fs, delays, reqs => ⟨fs, false, delays, reqs⟩
  | k, remaining + 1, hdr, existing, backoff, fs, delays, reqs =>
    match runAttempt (script k) hdr existing fs with
    | .done fs' => ⟨fs', true, delays, reqs ++ [hdr]⟩
    | .retry hdr' existing' fs' =>
      download_chunked_go script (k + 1) remaining hdr' existing' (2 * backoff) fs'
        (delays ++ [backoff]) (reqs ++ [hdr])

/-- CLI `download_chunked` (tv3_cli.py 317-383): measure the temp file, decide
the initial `Range: bytes={existing}-` header, then run up to `maxRetries`
attempts with initial backoff 1. -/
def download_chunked (script : Nat → Option Resp) (maxRetries : Nat) (useRange : Bool)
    (fs : FS) : DLOut :=
  let existing := (fs.tmp.getD []).length
  let hdr : Option Nat := if useRange && decide (0 < existing) then some existing else none
  download_chunked_go script 1 maxRetries hdr existing 1 fs [] []

/-- The GUI retry loop (tv3_gui.py 2543-2592): identical per-attempt logic, but
a caught exception sleeps a constant 1 second (`time.sleep(1)`). -/
def gui_download_go (script : Nat → Option Resp) : Nat → Nat → Option Nat → Nat →
    FS → List Nat → List (Option Nat) → DLOut
  | _, 0, _, _, fs, delays, reqs => ⟨fs, false, delays, reqs⟩
  | k, remaining + 1, hdr, existing, fs, delays, reqs =>
    match runAttempt (script k) hdr existing fs with
    | .done fs' => ⟨fs', true, delays, reqs ++ [hdr]⟩
    | .retry hdr' existing' fs' =>
      gui_download_go script (k + 1) remaining hdr' existing' fs'
        (delays ++ [1]) (reqs ++ [hdr])

/-- GUI `download_chunked_with_callback` (tv3_gui.py 2539-2594), with the
progress-queue events omitted. -/
def gui_download_chunked (script : Nat → Option Resp) (maxRetries : Nat)
    (useRange : Bool) (fs : FS) : DLOut :=
  let existing := (fs.tmp.getD []).length
  let hdr : Option Nat := if useRange && decide (0 < existing) then some existing else none
  gui_download_go script 1 maxRetries hdr existing fs [] []

end TV3


namespace TV3

/-- Unfolding equations of the CLI loop, stated once so proofs can rewrite a
single step at a time. -/
theorem download_chunked_go_zero (script : Nat → Option Resp) (k : Nat) (hdr : Option Nat)
    (existing backoff : Nat) (fs : FS) (delays : List Nat) (reqs : List (Option Nat)) :
    download_chunked_go script k 0 hdr existing backoff fs delays reqs
      = ⟨fs, false, delays, reqs⟩ := rfl

theorem download_chunked_go_succ (script : Nat → Option Resp) (k n : Nat) (hdr : Option Nat)
    (existing backoff : Nat) (fs : FS) (delays : List Nat) (reqs : List (Option Nat)) :
    download_chunked_go script k (n + 1) hdr existing backoff fs delays reqs
      = match runAttempt (script k) hdr existing fs with
        | .done fs' => ⟨fs', true, delays, reqs ++ [hdr]⟩
        | .retry hdr' existing' fs' =>
          download_chunked_go script (k + 1) n hdr' existing' (2 * backoff) fs'
            (delays ++ [backoff]) (reqs ++ [hdr]) := rfl

theorem gui_download_go_zero (script : Nat → Option Resp) (k : Nat) (hdr : Option Nat)
    (existing : Nat) (fs : FS) (delays : List Nat) (reqs : List (Option Nat)) :
    gui_download_go script k 0 hdr existing fs delays reqs = ⟨fs, false, delays, reqs⟩ := rfl

theorem gui_download_go_succ (script : Nat → Option Resp) (k n : Nat) (hdr : Option Nat)
    (existing : Nat) (fs : FS) (delays : List Nat) (reqs : List (Option Nat)) :
    gui_download_go script k (n + 1) hdr existing fs delays reqs
      = match runAttempt (script k) hdr existing fs with
        | .done fs' => ⟨fs', true, delays, reqs ++ [hdr]⟩
        | .retry hdr' existing' fs' =>
          gui_download_go script (k + 1) n hdr' existing' fs'
            (delays ++ [1]) (reqs ++ [hdr]) := rfl

/-- Each run of the CLI loop issues the pending header as its next request. -/
theorem download_chunked_go_reqs (script : Nat → Option Resp) :
    ∀ (remaining k : Nat) (hdr : Option Nat) (existing backoff : Nat) (fs : FS)
      (delays : List Nat) (reqs : List (Option Nat)), 0 < remaining →
      ∃ rest, (download_chunked_go script k remaining hdr existing backoff fs delays reqs).reqs
        = reqs ++ hdr :: rest := by
  intro remaining
  induction remaining with
  | zero => intro k hdr existing backoff fs delays reqs h; omega
  | succ n ih =>
    intro k hdr existing backoff fs delays reqs _
    cases h : runAttempt (script k) hdr existing fs with
    | done fs' =>
      exact ⟨[], by simp [download_chunked_go_succ, h]⟩
    | retry hdr' existing' fs' =>
      cases n with
      | zero =>
        exact ⟨[], by simp [download_chunked_go_succ, h, download_chunked_go_zero]⟩
      | succ m =>
        obtain ⟨rest, hrest⟩ := ih (k + 1) hdr' existing' (2 * backoff) fs'
          (delays ++ [backoff]) (reqs ++ [hdr]) (Nat.succ_pos m)
        refine ⟨hdr' :: rest, ?_⟩
        rw [download_chunked_go_succ, h]
        show (download_chunked_go script (k + 1) (m + 1) hdr' existing' (2 * backoff) fs'
          (delays ++ [backoff]) (reqs ++ [hdr])).reqs = _
        rw [hrest]
        simp

/-- The CLI loop's sleeps are `backoff, 2·backoff, 4·backoff, ...`, one per
failed attempt, at most `remaining` of them. -/
theorem download_chunked_go_delays (script : Nat → Option Resp) :
    ∀ (remaining k : Nat) (hdr : Option Nat) (existing backoff : Nat) (fs : FS)
      (delays : List Nat) (reqs : List (Option Nat)),
      ∃ n, n ≤ remaining ∧
        (download_chunked_go script k remaining hdr existing backoff fs delays reqs).delays
          = delays ++ (List.range n).map (fun i => backoff * 2 ^ i) := by
  intro remaining
  induction remaining with
  | zero =>
    intro k hdr existing backoff fs delays reqs
    exact ⟨0, Nat.le_refl 0, by simp [download_chunked_go_zero]⟩
  | succ n ih =>
    intro k hdr existing backoff fs delays reqs
    cases h : runAttempt (script k) hdr existing fs with
    | done fs' =>
      exact ⟨0, Nat.zero_le _, by simp [download_chunked_go_succ, h]⟩
    | retry hdr' existing' fs' =>
      obtain ⟨m, hm, hdel⟩ := ih (k + 1) hdr' existing' (2 * backoff) fs'
        (delays ++ [backoff]) (reqs ++ [hdr])
      refine ⟨m + 1, by omega, ?_⟩
      rw [download_chunked_go_succ, h]
      show (download_chunked_go script (k + 1) n hdr' existing' (2 * backoff) fs'
        (delays ++ [backoff]) (reqs ++ [hdr])).delays = _
      rw [hdel, List.range_succ_eq_map, List.map_cons, List.map_map]
      simp only [List.append_assoc, List.singleton_append]
      congr 2
      · simp
      · apply List.map_congr_left
        intro i _
        simp only [Function.comp_apply, Nat.pow_succ]
        ring

/-- The CLI loop issues at most `remaining` further requests. -/
theorem download_chunked_go_reqs_length (script : Nat → Option Resp) :
    ∀ (remaining k : Nat) (hdr : Option Nat) (existing backoff : Nat) (fs : FS)
      (delays : List Nat) (reqs : List (Option Nat)),
      (download_chunked_go script k remaining hdr existing backoff fs delays reqs).reqs.length
        ≤ reqs.length + remaining := by
  intro remaining
  induction remaining with
  | zero =>
    intro k hdr existing backoff fs delays reqs
    simp [download_chunked_go_zero]
  | succ n ih =>
    intro k hdr existing backoff fs delays reqs
    cases h : runAttempt (script k) hdr existing fs with
    | done fs' =>
      rw [download_chunked_go_succ, h]
      show (DLOut.mk fs' true delays (reqs ++ [hdr])).reqs.length ≤ _
      simp
    | retry hdr' existing' fs' =>
      have hrec := ih (k + 1) hdr' existing' (2 * backoff) fs' (delays ++ [backoff])
        (reqs ++ [hdr])
      rw [download_chunked_go_succ, h]
      show (download_chunked_go script (k + 1) n hdr' existing' (2 * backoff) fs'
        (delays ++ [backoff]) (reqs ++ [hdr])).reqs.length ≤ _
      simp at hrec
      omega

/-- Same as `download_chunked_go_reqs` for the GUI loop. -/
theorem gui_download_go_reqs (script : Nat → Option Resp) :
    ∀ (remaining k : Nat) (hdr : Option Nat) (existing : Nat) (fs : FS)
      (delays : List Nat) (reqs : List (Option Nat)), 0 < remaining →
      ∃ rest, (gui_download_go script k remaining hdr existing fs delays reqs).reqs
        = reqs ++ hdr :: rest := by
  intro remaining
  induction remaining with
  | zero => intro k hdr existing fs delays reqs h; omega
  | succ n ih =>
    intro k hdr existing fs delays reqs _
    cases h : runAttempt (script k) hdr existing fs with
    | done fs' =>
      exact ⟨[], by simp [gui_download_go_succ, h]⟩
    | retry hdr' existing' fs' =>
      cases n with
      | zero =>
        exact ⟨[], by simp [gui_download_go_succ, h, gui_download_go_zero]⟩
      | succ m =>
        obtain ⟨rest, hrest⟩ := ih (k + 1) hdr' existing' fs'
          (delays ++ [1]) (reqs ++ [hdr]) (Nat.succ_pos m)
        refine ⟨hdr' :: rest, ?_⟩
        rw [gui_download_go_succ, h]
        show (gui_download_go script (k + 1) (m + 1) hdr' existing' fs'
          (delays ++ [1]) (reqs ++ [hdr])).reqs = _
        rw [hrest]
        simp

/-- The GUI loop sleeps a constant 1 second per failed attempt. -/
theorem gui_download_go_delays (script : Nat → Option Resp) :
    ∀ (remaining k : Nat) (hdr : Option Nat) (existing : Nat) (fs : FS)
      (delays : List Nat) (reqs : List (Option Nat)),
      ∃ n, n ≤ remaining ∧
        (gui_download_go script k remaining hdr existing fs delays reqs).delays
          = delays ++ List.replicate n 1 := by
  intro remaining
  induction remaining with
  | zero =>
    intro k hdr existing fs delays reqs
    exact ⟨0, Nat.le_refl 0, by simp [gui_download_go_zero]⟩
  | succ n ih =>
    intro k hdr existing fs delays reqs
    cases h : runAttempt (script k) hdr existing fs with
    | done fs' =>
      exact ⟨0, Nat.zero_le _, by simp [gui_download_go_succ, h]⟩
    | retry hdr' existing' fs' =>
      obtain ⟨m, hm, hdel⟩ := ih (k + 1) hdr' existing' fs' (delays ++ [1]) (reqs ++ [hdr])
      refine ⟨m + 1, by omega, ?_⟩
      rw [gui_download_go_succ, h]
      show (gui_download_go script (k + 1) n hdr' existing' fs'
        (delays ++ [1]) (reqs ++ [hdr])).delays = _
      rw [hdel]
      simp [List.replicate_succ]

/-- The GUI loop issues at most `remaining` further requests. -/
theorem gui_download_go_reqs_length (script : Nat → Option Resp) :
    ∀ (remaining k : Nat) (hdr : Option Nat) (existing : Nat) (fs : FS)
      (delays : List Nat) (reqs : List (Option Nat)),
      (gui_download_go script k remaining hdr existing fs delays reqs).reqs.length
        ≤ reqs.length + remaining := by
  intro remaining
  induction remaining with
  | zero =>
    intro k hdr existing fs delays reqs
    simp [gui_download_go_zero]
  | succ n ih =>
    intro k hdr existing fs delays reqs
    cases h : runAttempt (script k) hdr existing fs with
    | done fs' =>
      rw [gui_download_go_succ, h]
      show (DLOut.mk fs' true delays (reqs ++ [hdr])).reqs.length ≤ _
      simp
    | retry hdr' existing' fs' =>
      have hrec := ih (k + 1) hdr' existing' fs' (delays ++ [1]) (reqs ++ [hdr])
      rw [gui_download_go_succ, h]
      show (gui_download_go script (k + 1) n hdr' existing' fs'
        (delays ++ [1]) (reqs ++ [hdr])).reqs.length ≤ _
      simp at hrec
      omega

end TV3

namespace TV3

/-- A streaming failure leaves a (possibly grown) temp file behind. -/
theorem streamBody_retry_tmp {r : Resp} {app : Bool} {hdr0 : Option Nat} {ex0 : Nat}
    {fs : FS} {hdr' : Option Nat} {existing' : Nat} {fs' : FS}
    (h : streamBody r app hdr0 ex0 fs = .retry hdr' existing' fs') :
    fs'.tmp.isSome = true := by
  cases hfa : r.failAfter with
  | some n =>
    simp only [streamBody, hfa] at h
    cases h
    rfl
  | none =>
    simp only [streamBody, hfa] at h
    cases h

/-- A caught exception never deletes the temp file: the retry state's temp file
is the previous one or a freshly (re)written one. -/
theorem runAttempt_retry_tmp {r? : Option Resp} {hdr : Option Nat} {existing : Nat}
    {fs : FS} {hdr' : Option Nat} {existing' : Nat} {fs' : FS}
    (h : runAttempt r? hdr existing fs = .retry hdr' existing' fs') :
    fs'.tmp = fs.tmp ∨ fs'.tmp.isSome = true := by
  cases r? with
  | none =>
    simp only [runAttempt] at h
    cases h
    exact Or.inl rfl
  | some r =>
    simp only [runAttempt] at h
    split at h
    · split at h
      · exact Or.inr (streamBody_retry_tmp h)
      · split at h
        · cases h
        · split at h
          · cases h
            exact Or.inl rfl
          · exact Or.inr (streamBody_retry_tmp h)
    · split at h
      · cases h
        exact Or.inl rfl
      · exact Or.inr (streamBody_retry_tmp h)

/-- If the CLI run fails and a temp file existed, a temp file still exists. -/
theorem download_chunked_go_tmp (script : Nat → Option Resp) :
    ∀ (remaining k : Nat) (hdr : Option Nat) (existing backoff : Nat) (fs : FS)
      (delays : List Nat) (reqs : List (Option Nat)),
      fs.tmp.isSome = true →
      (download_chunked_go script k remaining hdr existing backoff fs delays reqs).success
        = false →
      (download_chunked_go script k remaining hdr existing backoff fs
        delays reqs).fs.tmp.isSome = true := by
  intro remaining
  induction remaining with
  | zero =>
    intro k hdr existing backoff fs delays reqs htmp _
    simpa [download_chunked_go_zero] using htmp
  | succ n ih =>
    intro k hdr existing backoff fs delays reqs htmp hsucc
    cases h : runAttempt (script k) hdr existing fs with
    | done fs' =>
      rw [download_chunked_go_succ, h] at hsucc
      simp at hsucc
    | retry hdr' existing' fs' =>
      rw [download_chunked_go_succ, h] at hsucc ⊢
      have htmp' : fs'.tmp.isSome = true := by
        rcases runAttempt_retry_tmp h with h1 | h2
        · rw [h1]
          exact htmp
        · exact h2
      exact ih (k + 1) hdr' existing' (2 * backoff) fs' (delays ++ [backoff]) (reqs ++ [hdr])
        htmp' hsucc

/-- C5: for every download task executed by the worker (CLI `download_chunked`
and GUI `download_chunked_with_callback`), when resume (`use_range`) is enabled
and the temp file holds `existingBytes > 0` bytes, the first request carries the
range header `bytes={existingBytes}-`; otherwise (resume disabled or an
empty/absent temp file) the first request carries no range header. -/
theorem worker_first_request (script : Nat → Option Resp) (maxRetries : Nat)
    (useRange : Bool) (fs : FS) (hmr : 0 < maxRetries) :
    (useRange = true → 0 < (fs.tmp.getD []).length →
      (∃ rest, (download_chunked script maxRetries useRange fs).reqs
          = some (fs.tmp.getD []).length :: rest) ∧
      (∃ rest, (gui_download_chunked script maxRetries useRange fs).reqs
          = some (fs.tmp.getD []).length :: rest)) ∧
    ((useRange = false ∨ (fs.tmp.getD []).length = 0) →
      (∃ rest, (download_chunked script maxRetries useRange fs).reqs = none :: rest) ∧
      (∃ rest, (gui_download_chunked script maxRetries useRange fs).reqs = none :: rest)) := by
  constructor
  · intro hur hpos
    have hcond : (useRange && decide (0 < (fs.tmp.getD []).length)) = true := by
      rw [hur]
      simpa using hpos
    constructor
    · obtain ⟨rest, hrest⟩ := download_chunked_go_reqs script maxRetries 1
        (some ((fs.tmp.getD []).length)) ((fs.tmp.getD []).length) 1 fs [] [] hmr
      refine ⟨rest, ?_⟩
      show (download_chunked_go script 1 maxRetries
        (if useRange && decide (0 < (fs.tmp.getD []).length) then
          some ((fs.tmp.getD []).length) else none)
        ((fs.tmp.getD []).length) 1 fs [] []).reqs = _
      rw [if_pos hcond]
      simpa using hrest
    · obtain ⟨rest, hrest⟩ := gui_download_go_reqs script maxRetries 1
        (some ((fs.tmp.getD []).length)) ((fs.tmp.getD []).length) fs [] [] hmr
      refine ⟨rest, ?_⟩
      show (gui_download_go script 1 maxRetries
        (if useRange && decide (0 < (fs.tmp.getD []).length) then
          some ((fs.tmp.getD []).length) else none)
        ((fs.tmp.getD []).length) fs [] []).reqs = _
      rw [if_pos hcond]
      simpa using hrest
  · intro hdis
    have hcond : (useRange && decide (0 < (fs.tmp.getD []).length)) = false := by
      rcases hdis with h | h
      · simp [h]
      · simp [h]
    constructor
    · obtain ⟨rest, hrest⟩ := download_chunked_go_reqs script maxRetries 1
        none ((fs.tmp.getD []).length) 1 fs [] [] hmr
      refine ⟨rest, ?_⟩
      show (download_chunked_go script 1 maxRetries
        (if useRange && decide (0 < (fs.tmp.getD []).length) then
          some ((fs.tmp.getD []).length) else none)
        ((fs.tmp.getD []).length) 1 fs [] []).reqs = _
      rw [if_neg (by simp [hcond])]
      simpa using hrest
    · obtain ⟨rest, hrest⟩ := gui_download_go_reqs script maxRetries 1
        none ((fs.tmp.getD []).length) fs [] [] hmr
      refine ⟨rest, ?_⟩
      show (gui_download_go script 1 maxRetries
        (if useRange && decide (0 < (fs.tmp.getD []).length) then
          some ((fs.tmp.getD []).length) else none)
        ((fs.tmp.getD []).length) fs [] []).reqs = _
      rw [if_neg (by simp [hcond])]
      simpa using hrest

/-- Witness for C5: a 2-byte temp file with resume enabled yields a first
request with range offset 2. -/
theorem worker_first_request_witness :
    (∃ rest, (download_chunked (fun _ => some ⟨206, [1], none⟩) 4 true
        ⟨some [9, 9], none⟩).reqs = some 2 :: rest) ∧
    ∃ rest, (gui_download_chunked (fun _ => some ⟨206, [1], none⟩) 4 true
        ⟨some [9, 9], none⟩).reqs = some 2 :: rest :=
  (worker_first_request (fun _ => some ⟨206, [1], none⟩) 4 true ⟨some [9, 9], none⟩
      (by decide)).1 rfl (by decide)

end TV3

namespace TV3

/-- C6: when the range request is answered with status 416
(range-not-satisfiable), both workers atomically move the temp file onto the
final path and succeed: the final file is exactly the previously existing temp
bytes, no byte is streamed, no retry sleep happens, and exactly one request was
issued. -/
theorem range_not_satisfiable_finalizes (script : Nat → Option Resp) (maxRetries : Nat)
    (fs : FS) (bs : List Nat) (r : Resp) (htmp : fs.tmp = some bs) (hne : bs ≠ [])
    (hmr : 0 < maxRetries) (h1 : script 1 = some r) (hst : r.status = 416) :
    download_chunked script maxRetries true fs
        = ⟨⟨none, some bs⟩, true, [], [some bs.length]⟩ ∧
      gui_download_chunked script maxRetries true fs
        = ⟨⟨none, some bs⟩, true, [], [some bs.length]⟩ := by
  obtain ⟨m, rfl⟩ : ∃ m, maxRetries = m + 1 := ⟨maxRetries - 1, by omega⟩
  obtain ⟨tmp0, dst0⟩ := fs
  simp only at htmp
  subst htmp
  have hlen : 0 < bs.length := List.length_pos.mpr hne
  have hcond : (true && decide (0 < bs.length)) = true := by simp [hlen]
  have hattempt : runAttempt (script 1) (some bs.length) bs.length ⟨some bs, dst0⟩
      = .done ⟨none, some bs⟩ := by
    rw [h1]
    simp [runAttempt, hst]
  constructor
  · show download_chunked_go script 1 (m + 1)
      (if true && decide (0 < bs.length) then some bs.length else none)
      bs.length 1 ⟨some bs, dst0⟩ [] [] = _
    rw [if_pos hcond, download_chunked_go_succ, hattempt]
    rfl
  · show gui_download_go script 1 (m + 1)
      (if true && decide (0 < bs.length) then some bs.length else none)
      bs.length ⟨some bs, dst0⟩ [] [] = _
    rw [if_pos hcond, gui_download_go_succ, hattempt]
    rfl

/-- Witness for C6: a 2-byte temp file, a 416 response with a nonempty body on
offer — the final file is exactly the old temp bytes and only one request was
issued. -/
theorem range_not_satisfiable_finalizes_witness :
    download_chunked (fun _ => some ⟨416, [4, 4], none⟩) 4 true ⟨some [7, 8], none⟩
        = ⟨⟨none, some [7, 8]⟩, true, [], [some 2]⟩ ∧
      gui_download_chunked (fun _ => some ⟨416, [4, 4], none⟩) 4 true ⟨some [7, 8], none⟩
        = ⟨⟨none, some [7, 8]⟩, true, [], [some 2]⟩ :=
  range_not_satisfiable_finalizes (fun _ => some ⟨416, [4, 4], none⟩) 4
    ⟨some [7, 8], none⟩ [7, 8] ⟨416, [4, 4], none⟩ rfl (by decide) (by decide) rfl rfl

/-- C7: when the server answers a range request with full-content status 200,
both workers discard the counted `existing` bytes, drop the range header and
stream the response in overwrite mode, treating it as recoverable: on a clean
stream the run succeeds and the final file is exactly the freshly streamed body
(no residual prefix of the old temp bytes); on a mid-stream failure the temp
file holds exactly the freshly streamed prefix and the next request carries no
range header. -/
theorem range_ignored_restarts_overwrite (script : Nat → Option Resp) (maxRetries : Nat)
    (fs : FS) (bs : List Nat) (r : Resp) (htmp : fs.tmp = some bs) (hne : bs ≠ [])
    (h1 : script 1 = some r) (hst : r.status = 200) :
    (r.failAfter = none → 0 < maxRetries →
      download_chunked script maxRetries true fs
          = ⟨⟨none, some r.body⟩, true, [], [some bs.length]⟩ ∧
        gui_download_chunked script maxRetries true fs
          = ⟨⟨none, some r.body⟩, true, [], [some bs.length]⟩) ∧
    (∀ n, r.failAfter = some n → maxRetries = 2 → script 2 = none →
      download_chunked script maxRetries true fs
          = ⟨⟨some (r.body.take n), fs.dst⟩, false, [1, 2], [some bs.length, none]⟩ ∧
        gui_download_chunked script maxRetries true fs
          = ⟨⟨some (r.body.take n), fs.dst⟩, false, [1, 1], [some bs.length, none]⟩) := by
  obtain ⟨tmp0, dst0⟩ := fs
  simp only at htmp
  subst htmp
  have hlen : 0 < bs.length := List.length_pos.mpr hne
  have hcond : (true && decide (0 < bs.length)) = true := by simp [hlen]
  constructor
  · intro hfa hmr
    obtain ⟨m, rfl⟩ : ∃ m, maxRetries = m + 1 := ⟨maxRetries - 1, by omega⟩
    have hattempt : runAttempt (script 1) (some bs.length) bs.length ⟨some bs, dst0⟩
        = .done ⟨none, some r.body⟩ := by
      rw [h1]
      simp [runAttempt, streamBody, hst, hfa]
    constructor
    · show download_chunked_go script 1 (m + 1)
        (if true && decide (0 < bs.length) then some bs.length else none)
        bs.length 1 ⟨some bs, dst0⟩ [] [] = _
      rw [if_pos hcond, download_chunked_go_succ, hattempt]
      rfl
    · show gui_download_go script 1 (m + 1)
        (if true && decide (0 < bs.length) then some bs.length else none)
        bs.length ⟨some bs, dst0⟩ [] [] = _
      rw [if_pos hcond, gui_download_go_succ, hattempt]
      rfl
  · intro n hfa hmr h2
    subst hmr
    have hattempt : runAttempt (script 1) (some bs.length) bs.length ⟨some bs, dst0⟩
        = .retry none 0 ⟨some (r.body.take n), dst0⟩ := by
      rw [h1]
      simp [runAttempt, streamBody, hst, hfa]
    have hattempt2 : runAttempt (script 2) none 0 (⟨some (r.body.take n), dst0⟩ : FS)
        = .retry none 0 ⟨some (r.body.take n), dst0⟩ := by
      rw [h2]
      simp [runAttempt]
    constructor
    · show download_chunked_go script 1 2
        (if true && decide (0 < bs.length) then some bs.length else none)
        bs.length 1 ⟨some bs, dst0⟩ [] [] = _
      rw [if_pos hcond, download_chunked_go_succ, hattempt]
      show download_chunked_go script 2 1 none 0 2 ⟨some (r.body.take n), dst0⟩
        [1] [some bs.length] = _
      rw [download_chunked_go_succ, hattempt2]
      show download_chunked_go script 3 0 none 0 4 ⟨some (r.body.take n), dst0⟩
        [1, 2] [some bs.length, none] = _
      rw [download_chunked_go_zero]
    · show gui_download_go script 1 2
        (if true && decide (0 < bs.length) then some bs.length else none)
        bs.length ⟨some bs, dst0⟩ [] [] = _
      rw [if_pos hcond, gui_download_go_succ, hattempt]
      show gui_download_go script 2 1 none 0 ⟨some (r.body.take n), dst0⟩
        [1] [some bs.length] = _
      rw [gui_download_go_succ, hattempt2]
      show gui_download_go script 3 0 none 0 ⟨some (r.body.take n), dst0⟩
        [1, 1] [some bs.length, none] = _
      rw [gui_download_go_zero]

/-- Witness for C7, both branches: a clean 200-after-range stream yields exactly
the fresh body; a mid-stream failure leaves only fresh bytes in the temp file
and the retry carries no range. -/
theorem range_ignored_restarts_overwrite_witness :
    (download_chunked (fun _ => some ⟨200, [5, 6], none⟩) 4 true ⟨some [9], none⟩
        = ⟨⟨none, some [5, 6]⟩, true, [], [some 1]⟩ ∧
      gui_download_chunked (fun _ => some ⟨200, [5, 6], none⟩) 4 true ⟨some [9], none⟩
        = ⟨⟨none, some [5, 6]⟩, true, [], [some 1]⟩) ∧
    (download_chunked (fun k => if k == 1 then some ⟨200, [1, 2, 3], some 2⟩ else none) 2
        true ⟨some [9], none⟩
        = ⟨⟨some [1, 2], none⟩, false, [1, 2], [some 1, none]⟩ ∧
      gui_download_chunked (fun k => if k == 1 then some ⟨200, [1, 2, 3], some 2⟩ else none) 2
        true ⟨some [9], none⟩
        = ⟨⟨some [1, 2], none⟩, false, [1, 1], [some 1, none]⟩) :=
  ⟨(range_ignored_restarts_overwrite (fun _ => some ⟨200, [5, 6], none⟩) 4
      ⟨some [9], none⟩ [9] ⟨200, [5, 6], none⟩ rfl (by decide) rfl rfl).1 rfl (by decide),
    (range_ignored_restarts_overwrite (fun k => if k == 1 then some ⟨200, [1, 2, 3], some 2⟩
        else none) 2 ⟨some [9], none⟩ [9] ⟨200, [1, 2, 3], some 2⟩ rfl (by decide) rfl
      rfl).2 2 rfl rfl rfl⟩

end TV3

namespace TV3

/-- C8 (amended): the CLI worker's retry delays are exactly the geometric
sequence 1, 2, 4, ... (the delay before attempt k+1 is double the delay before
attempt k), while the GUI worker sleeps a constant 1 second between attempts
(`time.sleep(1)`); both issue at most `maxRetries` requests. -/
theorem retry_backoff_policy (script : Nat → Option Resp) (maxRetries : Nat)
    (useRange : Bool) (fs : FS) :
    (∃ n, n ≤ maxRetries ∧
        (download_chunked script maxRetries useRange fs).delays
          = (List.range n).map (fun i => 2 ^ i)) ∧
    (download_chunked script maxRetries useRange fs).reqs.length ≤ maxRetries ∧
    (∃ m, m ≤ maxRetries ∧
        (gui_download_chunked script maxRetries useRange fs).delays
          = List.replicate m 1) ∧
    (gui_download_chunked script maxRetries useRange fs).reqs.length ≤ maxRetries := by
  refine ⟨?_, ?_, ?_, ?_⟩
  · obtain ⟨n, hn, hdel⟩ := download_chunked_go_delays script maxRetries 1
      (if useRange && decide (0 < (fs.tmp.getD []).length) then
        some ((fs.tmp.getD []).length) else none)
      ((fs.tmp.getD []).length) 1 fs [] []
    refine ⟨n, hn, ?_⟩
    have h2 : (download_chunked script maxRetries useRange fs).delays
        = [] ++ (List.range n).map (fun i => 1 * 2 ^ i) := hdel
    simpa using h2
  · have h2 := download_chunked_go_reqs_length script maxRetries 1
      (if useRange && decide (0 < (fs.tmp.getD []).length) then
        some ((fs.tmp.getD []).length) else none)
      ((fs.tmp.getD []).length) 1 fs [] []
    have h3 : (download_chunked script maxRetries useRange fs).reqs.length
        ≤ ([] : List (Option Nat)).length + maxRetries := h2
    simpa using h3
  · obtain ⟨m, hm, hdel⟩ := gui_download_go_delays script maxRetries 1
      (if useRange && decide (0 < (fs.tmp.getD []).length) then
        some ((fs.tmp.getD []).length) else none)
      ((fs.tmp.getD []).length) fs [] []
    refine ⟨m, hm, ?_⟩
    have h2 : (gui_download_chunked script maxRetries useRange fs).delays
        = [] ++ List.replicate m 1 := hdel
    simpa using h2
  · have h2 := gui_download_go_reqs_length script maxRetries 1
      (if useRange && decide (0 < (fs.tmp.getD []).length) then
        some ((fs.tmp.getD []).length) else none)
      ((fs.tmp.getD []).length) fs [] []
    have h3 : (gui_download_chunked script maxRetries useRange fs).reqs.length
        ≤ ([] : List (Option Nat)).length + maxRetries := h2
    simpa using h3

/-- C8 counterexample: with every GET failing, the GUI worker sleeps 1 second
after each of its 4 attempts — the second delay is 1, not double the first, so
the claimed exponential backoff does not hold for the GUI worker. -/
theorem gui_constant_delay_counterexample :
    (gui_download_chunked (fun _ => none) 4 false ⟨none, none⟩).delays = [1, 1, 1, 1] ∧
    ¬ ((gui_download_chunked (fun _ => none) 4 false ⟨none, none⟩).delays.getD 1 0
        = 2 * (gui_download_chunked (fun _ => none) 4 false ⟨none, none⟩).delays.getD 0 0) := by
  constructor
  · rfl
  · decide

/-! ## Batch runner over the planned tasks (`download_from_csv`, tv3_cli.py 465-486) -/

/-- One planned download together with its server script and file state. -/
structure BatchTask where
  script : Nat → Option Resp
  maxRetries : Nat
  useRange : Bool
  fs : FS

/-- The run summary: futures whose worker returned a path vs `None`. -/
structure BatchSummary where
  saved : Nat
  notSaved : Nat
  deriving DecidableEq, Repr

/-- Processing one completed future (tv3_cli.py 474-484): a truthy result is
logged as saved, `None` as not saved; either way the loop continues. -/
def batchStep (acc : BatchSummary) (t : BatchTask) : BatchSummary :=
  if (download_chunked t.script t.maxRetries t.useRange t.fs).success then
    ⟨acc.saved + 1, acc.notSaved⟩
  else ⟨acc.saved, acc.notSaved + 1⟩

/-- The CLI batch loop (tv3_cli.py 465-486): every task is executed and
tallied; the run always reaches the closing summary log line. -/
def download_from_csv_run (tasks : List BatchTask) : BatchSummary :=
  tasks.foldl batchStep ⟨0, 0⟩

theorem batch_foldl_count (tasks : List BatchTask) :
    ∀ acc : BatchSummary,
      (tasks.foldl batchStep acc).saved + (tasks.foldl batchStep acc).notSaved
        = acc.saved + acc.notSaved + tasks.length := by
  induction tasks with
  | nil => intro acc; simp
  | cons t rest ih =>
    intro acc
    rw [List.foldl_cons]
    rw [ih (batchStep acc t)]
    unfold batchStep
    split <;> simp <;> omega

/-- C9: a worker whose attempts are exhausted returns the failure value instead
of raising (`success = false` is an ordinary return), and it leaves its temp
file in place for a future resume; the batch loop executes every task and
produces a summary accounting for all of them, whatever the per-task
failures. -/
theorem failed_task_keeps_temp_and_batch_completes :
    (∀ (script : Nat → Option Resp) (maxRetries : Nat) (useRange : Bool) (fs : FS),
        fs.tmp.isSome = true →
        (download_chunked script maxRetries useRange fs).success = false →
        (download_chunked script maxRetries useRange fs).fs.tmp.isSome = true) ∧
    ∀ tasks : List BatchTask,
      (download_from_csv_run tasks).saved + (download_from_csv_run tasks).notSaved
        = tasks.length := by
  constructor
  · intro script maxRetries useRange fs htmp hfail
    exact download_chunked_go_tmp script maxRetries 1
      (if useRange && decide (0 < (fs.tmp.getD []).length) then
        some ((fs.tmp.getD []).length) else none)
      ((fs.tmp.getD []).length) 1 fs [] [] htmp hfail
  · intro tasks
    have := batch_foldl_count tasks ⟨0, 0⟩
    simpa [download_from_csv_run] using this

/-- Witness for C9: every GET fails, the 1-byte temp file survives the failed
run. -/
theorem failed_task_keeps_temp_witness :
    (download_chunked (fun _ => none) 3 true ⟨some [7], none⟩).fs.tmp.isSome = true :=
  failed_task_keeps_temp_and_batch_completes.1 (fun _ => none) 3 true ⟨some [7], none⟩
    (by decide) (by decide)

end TV3
